import Mathlib

/-!
# Verification of the VLM dataset-creation pipeline (bills of lading → FUNSD)

Shallow embedding of the pipeline's geometric/semantic core, translated from
the Python sources:

* `step5_merge_to_funsd.py` — `FUNSDMerger.merge_boxes`, `get_funsd_label`,
  `split_text_to_words`, `generate_funsd`;
* `step2_ocr.py` / `step3_vlm_grouping.py` / `step4_vlm_classification.py`
  — the per-stage task scans and the VLM response parsing.

Python `int` is modelled by `ℤ`, Python `float` by `ℚ` (exact arithmetic),
Python `str` by `List Char` where the text is inspected character-wise and by
`String` where it is only an opaque key or label.  Fallible code returns
`Option`.
-/

/-- An axis-aligned box `[x1, y1, x2, y2]` in pixel space (Python list of 4 ints). -/
structure Box where
  x1 : ℤ
  y1 : ℤ
  x2 : ℤ
  y2 : ℤ
deriving DecidableEq

/-- One OCR fragment as stored in the OCR artifact's `text_boxes` list
(`step2_ocr.py`, `ocr_image`): `{id, text, box, ...}`.  The `polygon` and
`confidence` fields are never read by the merger and are omitted. -/
structure TextBox where
  id : ℤ
  text : List Char
  box : Box
deriving DecidableEq

/-- The dict returned by `FUNSDMerger.merge_boxes`: `{"text": ..., "box": ...}`. -/
structure Merged where
  text : List Char
  box : Box
deriving DecidableEq

/-- `FUNSDMerger.merge_boxes` (step5_merge_to_funsd.py lines 116–135):
returns `None` on an empty list, otherwise joins the texts with single
spaces and takes the componentwise min/min/max/max of the boxes.
Python's `min`/`max` over a non-empty sequence is modelled by `List.foldl`
over the head and tail. -/
def merge_boxes : List TextBox → Option Merged
  | [] => none
  | b :: bs =>
    let texts := (b :: bs).map (·.text)
    let merged_text := List.intercalate [' '] texts
    some
      { text := merged_text
        box :=
          { x1 := (bs.map (·.box.x1)).foldl min b.box.x1
            y1 := (bs.map (·.box.y1)).foldl min b.box.y1
            x2 := (bs.map (·.box.x2)).foldl max b.box.x2
            y2 := (bs.map (·.box.y2)).foldl max b.box.y2 } }

/-- One entry of the label taxonomy (`config.py`, `BILL_OF_LADING_LABELS`).
Only the `name` and `category` fields are ever read by the pipeline
(`name_cn` / `name_en` / `description` are display-only and omitted). -/
structure LabelInfo where
  name : String
  category : String
deriving DecidableEq

/-- `config.py` lines 70–289: the fixed 29-entry taxonomy, keyed by label ID.
The Python dict is modelled as a partial function `ℤ → Option LabelInfo`
(dict membership = `isSome`, subscript = the `some` payload). -/
def BILL_OF_LADING_LABELS (i : ℤ) : Option LabelInfo :=
  if i = 0 then some ⟨"shipper", "role"⟩
  else if i = 1 then some ⟨"consignee", "role"⟩
  else if i = 2 then some ⟨"notify_party", "role"⟩
  else if i = 3 then some ⟨"port_of_loading", "geography"⟩
  else if i = 4 then some ⟨"port_of_discharge", "geography"⟩
  else if i = 5 then some ⟨"port_of_delivery", "geography"⟩
  else if i = 6 then some ⟨"place_of_delivery", "geography"⟩
  else if i = 7 then some ⟨"place_of_receipt", "geography"⟩
  else if i = 8 then some ⟨"vessel", "transport"⟩
  else if i = 9 then some ⟨"voyage", "transport"⟩
  else if i = 10 then some ⟨"vessel_voyage", "transport"⟩
  else if i = 11 then some ⟨"container_no", "transport"⟩
  else if i = 12 then some ⟨"seal_no", "transport"⟩
  else if i = 13 then some ⟨"description_of_goods", "cargo"⟩
  else if i = 14 then some ⟨"marks_numbers", "cargo"⟩
  else if i = 15 then some ⟨"package", "cargo"⟩
  else if i = 16 then some ⟨"weight", "cargo"⟩
  else if i = 17 then some ⟨"volume", "cargo"⟩
  else if i = 18 then some ⟨"bl_no", "number"⟩
  else if i = 19 then some ⟨"freight", "number"⟩
  else if i = 20 then some ⟨"date", "number"⟩
  else if i = 21 then some ⟨"time", "number"⟩
  else if i = 22 then some ⟨"header", "layout"⟩
  else if i = 23 then some ⟨"footer", "layout"⟩
  else if i = 24 then some ⟨"company_logo", "layout"⟩
  else if i = 25 then some ⟨"rate", "rate"⟩
  else if i = 26 then some ⟨"total", "rate"⟩
  else if i = 27 then some ⟨"other", "other"⟩
  else if i = 28 then some ⟨"abandon", "other"⟩
  else none

/-- `step5_merge_to_funsd.py` lines 39–49: category → coarse FUNSD label. -/
def FUNSD_LABEL_MAPPING (category : String) : Option String :=
  if category = "role" then some "answer"
  else if category = "geography" then some "answer"
  else if category = "transport" then some "answer"
  else if category = "cargo" then some "answer"
  else if category = "number" then some "answer"
  else if category = "layout" then some "header"
  else if category = "rate" then some "answer"
  else if category = "other" then some "other"
  else none

/-- `FUNSDMerger.get_funsd_label` (step5_merge_to_funsd.py lines 137–142):
`if label_id in BILL_OF_LADING_LABELS: return FUNSD_LABEL_MAPPING.get(category, "other")`,
else `"other"`.  (Every taxonomy entry carries a `category` key, so the
Python `.get("category", "other")` default never fires.) -/
def get_funsd_label (label_id : ℤ) : String :=
  match BILL_OF_LADING_LABELS label_id with
  | some info => (FUNSD_LABEL_MAPPING info.category).getD "other"
  | none => "other"

/-- Modelled from the spec: `LABEL_ID_TO_NAME` is imported by
`step5_merge_to_funsd.py` from `config` but is not defined in the available
source of `config.py`.  Per the spec's data model a Label has "numeric ID
(0–28, unique), canonical name", and the merger resolves "the fine taxonomy
name"; `LABEL_ID_TO_NAME` is modelled as the ID → canonical-name projection
of `BILL_OF_LADING_LABELS`. -/
def LABEL_ID_TO_NAME (i : ℤ) : Option String :=
  (BILL_OF_LADING_LABELS i).map (·.name)

/-- Accumulator worker for `pySplit`: `acc` holds the characters of the
current word in reverse order. -/
def pySplitAux : List Char → List Char → List (List Char)
  | [], acc => if acc.isEmpty then [] else [acc.reverse]
  | c :: cs, acc =>
    if c.isWhitespace then
      if acc.isEmpty then pySplitAux cs [] else acc.reverse :: pySplitAux cs []
    else pySplitAux cs (c :: acc)

/-- Python `str.split()` with no argument (as used in
`split_text_to_words`, line 150): split on runs of whitespace, discarding
empty strings, so leading/trailing whitespace yields no parts. -/
def pySplit (s : List Char) : List (List Char) := pySplitAux s []

/-- Python `int(...)` applied to a float (as in line 161): truncation toward
zero. -/
def ratTrunc (q : ℚ) : ℤ := if q < 0 then ⌈q⌉ else ⌊q⌋

/-- A synthesized word record `{"text": ..., "box": ...}`. -/
structure Word where
  text : List Char
  box : Box
deriving DecidableEq

/-- The cursor loop of `FUNSDMerger.split_text_to_words` (lines 157–163):
each part gets the span `[int(current_x), y1, int(current_x + part_width), y2]`
and the cursor advances by `part_width + char_width`. -/
def wordsLoop (cw : ℚ) (y1 y2 : ℤ) : List (List Char) → ℚ → List Word
  | [], _ => []
  | p :: ps, cx =>
    { text := p
      box := { x1 := ratTrunc cx, y1 := y1,
               x2 := ratTrunc (cx + (p.length : ℚ) * cw), y2 := y2 } }
      :: wordsLoop cw y1 y2 ps (cx + (p.length : ℚ) * cw + cw)

/-- `FUNSDMerger.split_text_to_words` (step5_merge_to_funsd.py lines 144–165).
If `text.split()` yields no parts the single word `{"text": "", "box": box}`
is returned; otherwise the cursor loop runs with the uniform character width
`(x2 - x1) / max(len(text), 1)`.  Python float arithmetic is modelled by
exact rationals. -/
def split_text_to_words (text : List Char) (box : Box) : List Word :=
  if (pySplit text).isEmpty then [{ text := [], box := box }]
  else
    wordsLoop (((box.x2 : ℚ) - (box.x1 : ℚ)) / ((max text.length 1 : ℕ) : ℚ))
      box.y1 box.y2 (pySplit text) ((box.x1 : ℚ))

/-- Whether a character list starts with a non-whitespace character. -/
def headNotWs : List Char → Bool
  | [] => false
  | c :: _ => !c.isWhitespace

/-- Total split weight: each part contributes its length plus one separator. -/
def splitWeight (ps : List (List Char)) : ℕ := (ps.map (fun p => p.length + 1)).sum

/-- A JSON value stored in the classification artifact's `classifications`
dict.  By the artifact contract the values are label IDs, which the merger
accepts either as JSON ints or as strings converted with Python `int(...)`
(step5_merge_to_funsd.py lines 204–206). -/
inductive JVal where
  | jint : ℤ → JVal
  | jstr : List Char → JVal
deriving DecidableEq

/-- Value of a nonempty digit string. -/
def digitsVal (ds : List Char) : Option ℕ :=
  if ds.isEmpty then none
  else if ds.all Char.isDigit then
    some (ds.foldl (fun a c => 10 * a + (c.toNat - 48)) 0)
  else none

/-- Python `int(str)` (models the CPython built-in as used on classification
values): surrounding whitespace is ignored, an optional single sign precedes
a nonempty run of decimal digits; anything else raises `ValueError`
(modelled as `none`).  Exotic accepted forms (underscore separators,
non-ASCII digits) are not modelled; no claim depends on them. -/
def pyIntOfString (s : List Char) : Option ℤ :=
  match (s.dropWhile Char.isWhitespace).reverse.dropWhile Char.isWhitespace |>.reverse with
  | '-' :: ds => (digitsVal ds).map (fun n => -(n : ℤ))
  | '+' :: ds => (digitsVal ds).map (fun n => (n : ℤ))
  | ds => (digitsVal ds).map (fun n => (n : ℤ))

/-- Lines 204–206 of step5_merge_to_funsd.py:
`label_id = classifications.get(str(group_idx), 27)` followed by
`if isinstance(label_id, str): label_id = int(label_id)`.
A missing key defaults to `27`; a string value must parse as an int or the
page fails. -/
def resolveLabelId (v : Option JVal) : Option ℤ :=
  match v with
  | none => some 27
  | some (.jint n) => some n
  | some (.jstr s) => pyIntOfString s

/-- The dict comprehension at line 181,
`text_boxes = {box["id"]: box for box in ocr_data["text_boxes"]}`, followed by
membership test and subscript: a later box with the same `id` overwrites an
earlier one. -/
def text_box_lookup (boxes : List TextBox) (bid : ℤ) : Option TextBox :=
  boxes.foldl (fun acc b => if b.id = bid then some b else acc) none

/-- One output entity (the dict built at lines 212–221). -/
structure Entity where
  id : ℕ
  text : List Char
  box : Box
  label : String
  bol_label : String
  bol_label_id : ℤ
  words : List Word
  linking : List ℕ
deriving DecidableEq

/-- The final per-page FUNSD artifact
`{image, width, height, form}` (lines 226–231). -/
structure FunsdDoc where
  image : String
  width : ℤ
  height : ℤ
  form : List Entity
deriving DecidableEq

/-- The entity loop of `FUNSDMerger.generate_funsd`
(step5_merge_to_funsd.py lines 188–224), with the running `group_idx` from
`enumerate(groups)` and the separately advancing `entity_id`.  A group whose
resolved fragment list is empty is skipped (`continue`); a string label ID
that `int(...)` cannot parse raises, failing the whole page (`none`). -/
def buildForm (tbs : List TextBox) (cls : String → Option JVal) :
    List (List ℤ) → ℕ → ℕ → Option (List Entity)
  | [], _, _ => some []
  | g :: gs, group_idx, entity_id =>
    if (g.filterMap (fun bid => text_box_lookup tbs bid)).isEmpty then
      buildForm tbs cls gs (group_idx + 1) entity_id
    else
      match merge_boxes (g.filterMap (fun bid => text_box_lookup tbs bid)) with
      | none => buildForm tbs cls gs (group_idx + 1) entity_id
      | some merged =>
        match resolveLabelId (cls (toString group_idx)) with
        | none => none
        | some label_id =>
          (buildForm tbs cls gs (group_idx + 1) (entity_id + 1)).map
            (fun rest =>
              { id := entity_id
                text := merged.text
                box := merged.box
                label := get_funsd_label label_id
                bol_label := (LABEL_ID_TO_NAME label_id).getD "other"
                bol_label_id := label_id
                words := split_text_to_words merged.text merged.box
                linking := [] } :: rest)

/-- `FUNSDMerger.generate_funsd` (step5_merge_to_funsd.py lines 167–231).
The image name and size stand for what `Image.open` reads; the three
artifact parameters are the parsed `text_boxes`, `groups` and
`classifications` fields. -/
def generate_funsd (image_name : String) (width height : ℤ)
    (text_boxes : List TextBox) (groups : List (List ℤ))
    (classifications : String → Option JVal) : Option FunsdDoc :=
  (buildForm text_boxes classifications groups 0 0).map
    (fun form => { image := image_name, width := width, height := height, form := form })

/-- Which artifacts of one page currently exist on disk.  File paths are
abstracted to per-page existence flags: `image` for the page image under
`data/02_images/`, `ocr` / `grouping` / `classification` / `funsd` for the
page's JSON artifact of steps 2–5 respectively. -/
structure PageArtifacts where
  image : Bool
  ocr : Bool
  grouping : Bool
  classification : Bool
  funsd : Bool
deriving DecidableEq

/-- `OCRProcessor.scan_images` (step2_ocr.py lines 75–82): every image file
under the input directory is selected; there is no check whether the page's
OCR output artifact already exists. -/
def step2_selects (p : PageArtifacts) : Bool := p.image

/-- `VLMGroupingProcessor.scan_tasks` (step3_vlm_grouping.py lines 128–152):
a page is selected when its OCR artifact and image exist and its grouping
output artifact does not. -/
def step3_selects (p : PageArtifacts) : Bool := p.ocr && p.image && !p.grouping

/-- `VLMClassificationProcessor.scan_tasks` (step4_vlm_classification.py
lines 121–149): a page is selected when its grouping artifact, image and OCR
artifact exist and its classification output artifact does not. -/
def step4_selects (p : PageArtifacts) : Bool :=
  p.grouping && p.image && p.ocr && !p.classification

/-- `FUNSDMerger.scan_tasks` (step5_merge_to_funsd.py lines 86–114): a page
is selected when its classification artifact, image, OCR artifact and
grouping artifact exist; there is no check whether the page's final FUNSD
artifact already exists. -/
def step5_selects (p : PageArtifacts) : Bool :=
  p.classification && p.image && p.ocr && p.grouping

/-- Python `str.strip()`: remove leading and trailing whitespace (applied to
the raw VLM response at step3 line 184 / step4 line 194). -/
def pyStrip (s : List Char) : List Char :=
  ((s.dropWhile Char.isWhitespace).reverse.dropWhile Char.isWhitespace).reverse

/-- The backtick character, `U+0060`. -/
def isBacktick (c : Char) : Bool := c.toNat = 96

/-- Python `result_text.startswith(three backticks)` (step3 line 187 /
step4 line 197). -/
def startsWithFence : List Char → Bool
  | a :: b :: c :: _ => isBacktick a && isBacktick b && isBacktick c
  | _ => false

/-- Python `str.split` on a newline: split at every newline character, never
collapsing, so the empty string yields one empty line (step3 line 188 /
step4 line 198). -/
def splitLines : List Char → List (List Char)
  | [] => [[]]
  | c :: cs =>
    if c = '\n' then [] :: splitLines cs
    else
      match splitLines cs with
      | [] => [[c]]
      | l :: ls => (c :: l) :: ls

/-- Python: join lines with newlines (step3 line 189 / step4 line 199). -/
def joinLines (ls : List (List Char)) : List Char := List.intercalate ['\n'] ls

/-- The fence handling of `call_vlm` (step3_vlm_grouping.py lines 187–189,
identical in step4_vlm_classification.py lines 197–199):
`if result_text.startswith(fence): result_text = newline.join(lines[1:-1])`
— when the text starts with a fence, the first and the last line are removed
(the last unconditionally, fence or not); otherwise nothing is stripped. -/
def strip_fences (s : List Char) : List Char :=
  if startsWithFence s then joinLines ((splitLines s).drop 1).dropLast
  else s

/-- Stated from the spec's words, for comparison with `strip_fences` (C6):
"strip one leading and one trailing delimiter line if present, then require
valid JSON" — the leading line is removed only if it is a fence line, and
the trailing line is removed only if it is a fence line. -/
def spec_strip_fences (s : List Char) : List Char :=
  let ls := splitLines s
  let ls1 := match ls with
    | l :: rest => if startsWithFence l then rest else ls
    | [] => ls
  let ls2 := match ls1.getLast? with
    | some l => if startsWithFence l then ls1.dropLast else ls1
    | none => ls1
  joinLines ls2

/-- Character-level token of the modelled JSON fragment. -/
inductive RawTok where
  | lb | rb | comma | minus | ws
  | digit : ℕ → RawTok
deriving DecidableEq

/-- Character scan: brackets, commas, minus signs, whitespace and decimal
digits are the only characters the modelled JSON fragment admits. -/
def rawTokenize : List Char → Option (List RawTok)
  | [] => some []
  | c :: cs =>
    if c = '[' then (rawTokenize cs).map (RawTok.lb :: ·)
    else if c = ']' then (rawTokenize cs).map (RawTok.rb :: ·)
    else if c = ',' then (rawTokenize cs).map (RawTok.comma :: ·)
    else if c = '-' then (rawTokenize cs).map (RawTok.minus :: ·)
    else if c.isDigit then (rawTokenize cs).map (RawTok.digit (c.toNat - 48) :: ·)
    else if c.isWhitespace then (rawTokenize cs).map (RawTok.ws :: ·)
    else none

/-- A lexical token: bracket, comma, or a complete signed integer literal. -/
inductive Tok where
  | lb | rb | comma
  | num : ℤ → Tok
deriving DecidableEq

/-- Emit a pending numeral (sign and magnitude), if any. -/
def flushNum : Option (Bool × ℕ) → List Tok → List Tok
  | none, ts => ts
  | some (neg, n), ts => Tok.num (if neg then -(n : ℤ) else (n : ℤ)) :: ts

/-- Merge adjacent digits into integer literals; a minus sign must be
immediately followed by a digit. -/
def groupNumsAux : List RawTok → Option (Bool × ℕ) → Option (List Tok)
  | [], pend => some (flushNum pend [])
  | RawTok.digit d :: ts, none => groupNumsAux ts (some (false, d))
  | RawTok.digit d :: ts, some (neg, n) => groupNumsAux ts (some (neg, 10 * n + d))
  | RawTok.minus :: RawTok.digit d :: ts, none => groupNumsAux ts (some (true, d))
  | RawTok.minus :: _, _ => none
  | RawTok.ws :: ts, pend => (groupNumsAux ts none).map (fun r => flushNum pend r)
  | RawTok.lb :: ts, pend => (groupNumsAux ts none).map (fun r => flushNum pend (Tok.lb :: r))
  | RawTok.rb :: ts, pend => (groupNumsAux ts none).map (fun r => flushNum pend (Tok.rb :: r))
  | RawTok.comma :: ts, pend =>
    (groupNumsAux ts none).map (fun r => flushNum pend (Tok.comma :: r))

/-- Parser state for the fixed two-level grammar
`[ [int, ...], ... ]` of a grouping response. -/
inductive PState where
  | start | afterOpen | inOpen | inNum | inComma | afterInner | afterComma | done
deriving DecidableEq

/-- Token automaton for the grammar `[ ([ int (, int)* ]) (, [ ... ])* ]`
(with empty inner and outer lists allowed, as `json.loads` accepts them). -/
def parseAux : List Tok → PState → List (List ℤ) → List ℤ → Option (List (List ℤ))
  | [], PState.done, acc, _ => some acc.reverse
  | [], _, _, _ => none
  | Tok.lb :: ts, PState.start, acc, cur => parseAux ts PState.afterOpen acc cur
  | Tok.rb :: ts, PState.afterOpen, acc, cur => parseAux ts PState.done acc cur
  | Tok.lb :: ts, PState.afterOpen, acc, _ => parseAux ts PState.inOpen acc []
  | Tok.rb :: ts, PState.inOpen, acc, cur =>
    parseAux ts PState.afterInner (cur.reverse :: acc) []
  | Tok.num n :: ts, PState.inOpen, acc, cur => parseAux ts PState.inNum acc (n :: cur)
  | Tok.comma :: ts, PState.inNum, acc, cur => parseAux ts PState.inComma acc cur
  | Tok.rb :: ts, PState.inNum, acc, cur =>
    parseAux ts PState.afterInner (cur.reverse :: acc) []
  | Tok.num n :: ts, PState.inComma, acc, cur => parseAux ts PState.inNum acc (n :: cur)
  | Tok.comma :: ts, PState.afterInner, acc, cur => parseAux ts PState.afterComma acc cur
  | Tok.rb :: ts, PState.afterInner, acc, cur => parseAux ts PState.done acc cur
  | Tok.lb :: ts, PState.afterComma, acc, _ => parseAux ts PState.inOpen acc []
  | _, _, _, _ => none

/-- The modelled `json.loads` restricted to the shape the grouping contract
requires (a JSON array of arrays of integers): tokenize, merge numerals,
run the automaton.  Anything else — in particular the empty string — is a
parse failure (`none`). -/
def parseGroupsJson (s : List Char) : Option (List (List ℤ)) :=
  match rawTokenize s with
  | none => none
  | some rts =>
    match groupNumsAux rts none with
    | none => none
    | some ts => parseAux ts PState.start [] []

/-- The response-parsing tail of `VLMGroupingProcessor.call_vlm`
(step3_vlm_grouping.py lines 184–191) and, identically, of
`VLMClassificationProcessor.call_vlm` (step4 lines 194–201): strip outer
whitespace, apply the fence handling, then require the remainder to parse
as JSON; `none` is the hard page failure raised by `json.loads`. -/
def parse_grouping_response (raw : List Char) : Option (List (List ℤ)) :=
  parseGroupsJson (strip_fences (pyStrip raw))

/-- Python's `min` over a non-empty list is a lower bound of its members. -/
theorem foldl_min_le (l : List ℤ) (a : ℤ) : ∀ x ∈ a :: l, List.foldl min a l ≤ x := by
  induction l generalizing a with
  | nil => intro x hx; simp at hx; simp [hx]
  | cons b t ih =>
    intro x hx
    simp only [List.foldl_cons]
    rcases List.mem_cons.1 hx with rfl | hx'
    · exact le_trans (ih _ _ (List.mem_cons_self _ _)) (min_le_left _ _)
    · rcases List.mem_cons.1 hx' with rfl | hx''
      · exact le_trans (ih _ _ (List.mem_cons_self _ _)) (min_le_right _ _)
      · exact ih _ _ (List.mem_cons_of_mem _ hx'')

/-- Python's `min` over a non-empty list is attained by a member. -/
theorem foldl_min_mem (l : List ℤ) (a : ℤ) : List.foldl min a l ∈ a :: l := by
  induction l generalizing a with
  | nil => simp
  | cons b t ih =>
    simp only [List.foldl_cons]
    have h := ih (min a b)
    rcases List.mem_cons.1 h with h' | h'
    · rcases min_choice a b with hc | hc <;> rw [h', hc]
      · exact List.mem_cons_self _ _
      · exact List.mem_cons_of_mem _ (List.mem_cons_self _ _)
    · exact List.mem_cons_of_mem _ (List.mem_cons_of_mem _ h')

/-- Python's `max` over a non-empty list is an upper bound of its members. -/
theorem le_foldl_max (l : List ℤ) (a : ℤ) : ∀ x ∈ a :: l, x ≤ List.foldl max a l := by
  induction l generalizing a with
  | nil => intro x hx; simp at hx; simp [hx]
  | cons b t ih =>
    intro x hx
    simp only [List.foldl_cons]
    rcases List.mem_cons.1 hx with rfl | hx'
    · exact le_trans (le_max_left _ _) (ih _ _ (List.mem_cons_self _ _))
    · rcases List.mem_cons.1 hx' with rfl | hx''
      · exact le_trans (le_max_right _ _) (ih _ _ (List.mem_cons_self _ _))
      · exact ih _ _ (List.mem_cons_of_mem _ hx'')

/-- Python's `max` over a non-empty list is attained by a member. -/
theorem foldl_max_mem (l : List ℤ) (a : ℤ) : List.foldl max a l ∈ a :: l := by
  induction l generalizing a with
  | nil => simp
  | cons b t ih =>
    simp only [List.foldl_cons]
    have h := ih (max a b)
    rcases List.mem_cons.1 h with h' | h'
    · rcases max_choice a b with hc | hc <;> rw [h', hc]
      · exact List.mem_cons_self _ _
      · exact List.mem_cons_of_mem _ (List.mem_cons_self _ _)
    · exact List.mem_cons_of_mem _ (List.mem_cons_of_mem _ h')

/-- C1: For every non-empty list of fragments, `merge_boxes` succeeds and its
box is exactly the componentwise `[min x_min, min y_min, max x_max, max y_max]`
of the members: the merged box contains every member's box, and each of the
four sides is attained by some (extremal) member. -/
theorem merge_boxes_union (boxes : List TextBox) (h : boxes ≠ []) :
    ∃ m, merge_boxes boxes = some m ∧
      (∀ t ∈ boxes,
        m.box.x1 ≤ t.box.x1 ∧ m.box.y1 ≤ t.box.y1 ∧
        t.box.x2 ≤ m.box.x2 ∧ t.box.y2 ≤ m.box.y2) ∧
      (∃ t ∈ boxes, t.box.x1 = m.box.x1) ∧
      (∃ t ∈ boxes, t.box.y1 = m.box.y1) ∧
      (∃ t ∈ boxes, t.box.x2 = m.box.x2) ∧
      (∃ t ∈ boxes, t.box.y2 = m.box.y2) := by
  match boxes, h with
  | b :: bs, _ =>
    refine ⟨_, rfl, ?_, ?_, ?_, ?_, ?_⟩
    · intro t ht
      refine ⟨?_, ?_, ?_, ?_⟩
      · exact foldl_min_le _ _ _ (by
          rcases List.mem_cons.1 ht with rfl | ht'
          · exact List.mem_cons_self _ _
          · exact List.mem_cons_of_mem _ (List.mem_map_of_mem _ ht'))
      · exact foldl_min_le _ _ _ (by
          rcases List.mem_cons.1 ht with rfl | ht'
          · exact List.mem_cons_self _ _
          · exact List.mem_cons_of_mem _ (List.mem_map_of_mem _ ht'))
      · exact le_foldl_max _ _ _ (by
          rcases List.mem_cons.1 ht with rfl | ht'
          · exact List.mem_cons_self _ _
          · exact List.mem_cons_of_mem _ (List.mem_map_of_mem _ ht'))
      · exact le_foldl_max _ _ _ (by
          rcases List.mem_cons.1 ht with rfl | ht'
          · exact List.mem_cons_self _ _
          · exact List.mem_cons_of_mem _ (List.mem_map_of_mem _ ht'))
    · have h1 := foldl_min_mem (bs.map (·.box.x1)) b.box.x1
      rcases List.mem_cons.1 h1 with h' | h'
      · exact ⟨b, List.mem_cons_self _ _, h'.symm⟩
      · rcases List.mem_map.1 h' with ⟨t, ht, hval⟩
        exact ⟨t, List.mem_cons_of_mem _ ht, by simp [hval]⟩
    · have h1 := foldl_min_mem (bs.map (·.box.y1)) b.box.y1
      rcases List.mem_cons.1 h1 with h' | h'
      · exact ⟨b, List.mem_cons_self _ _, h'.symm⟩
      · rcases List.mem_map.1 h' with ⟨t, ht, hval⟩
        exact ⟨t, List.mem_cons_of_mem _ ht, by simp [hval]⟩
    · have h1 := foldl_max_mem (bs.map (·.box.x2)) b.box.x2
      rcases List.mem_cons.1 h1 with h' | h'
      · exact ⟨b, List.mem_cons_self _ _, h'.symm⟩
      · rcases List.mem_map.1 h' with ⟨t, ht, hval⟩
        exact ⟨t, List.mem_cons_of_mem _ ht, by simp [hval]⟩
    · have h1 := foldl_max_mem (bs.map (·.box.y2)) b.box.y2
      rcases List.mem_cons.1 h1 with h' | h'
      · exact ⟨b, List.mem_cons_self _ _, h'.symm⟩
      · rcases List.mem_map.1 h' with ⟨t, ht, hval⟩
        exact ⟨t, List.mem_cons_of_mem _ ht, by simp [hval]⟩

/-- Witness for C1 at the spec's concrete scenario: fragments
`{0: "Shipper", box=[0,0,50,10]}` and `{1: "ABC Co.", box=[0,12,80,22]}`. -/
theorem merge_boxes_union_witness :
    ([⟨0, "Shipper".toList, ⟨0, 0, 50, 10⟩⟩,
      ⟨1, "ABC Co.".toList, ⟨0, 12, 80, 22⟩⟩] : List TextBox) ≠ [] ∧
    ∃ m, merge_boxes [⟨0, "Shipper".toList, ⟨0, 0, 50, 10⟩⟩,
          ⟨1, "ABC Co.".toList, ⟨0, 12, 80, 22⟩⟩] = some m ∧
      (∀ t ∈ ([⟨0, "Shipper".toList, ⟨0, 0, 50, 10⟩⟩,
          ⟨1, "ABC Co.".toList, ⟨0, 12, 80, 22⟩⟩] : List TextBox),
        m.box.x1 ≤ t.box.x1 ∧ m.box.y1 ≤ t.box.y1 ∧
        t.box.x2 ≤ m.box.x2 ∧ t.box.y2 ≤ m.box.y2) ∧
      (∃ t ∈ ([⟨0, "Shipper".toList, ⟨0, 0, 50, 10⟩⟩,
          ⟨1, "ABC Co.".toList, ⟨0, 12, 80, 22⟩⟩] : List TextBox), t.box.x1 = m.box.x1) ∧
      (∃ t ∈ ([⟨0, "Shipper".toList, ⟨0, 0, 50, 10⟩⟩,
          ⟨1, "ABC Co.".toList, ⟨0, 12, 80, 22⟩⟩] : List TextBox), t.box.y1 = m.box.y1) ∧
      (∃ t ∈ ([⟨0, "Shipper".toList, ⟨0, 0, 50, 10⟩⟩,
          ⟨1, "ABC Co.".toList, ⟨0, 12, 80, 22⟩⟩] : List TextBox), t.box.x2 = m.box.x2) ∧
      (∃ t ∈ ([⟨0, "Shipper".toList, ⟨0, 0, 50, 10⟩⟩,
          ⟨1, "ABC Co.".toList, ⟨0, 12, 80, 22⟩⟩] : List TextBox), t.box.y2 = m.box.y2) :=
  ⟨by decide, merge_boxes_union _ (by decide)⟩

/-- Label IDs outside the 29-entry taxonomy are absent from the table. -/
theorem bill_of_lading_labels_out_of_range (i : ℤ) (h : i < 0 ∨ 28 < i) :
    BILL_OF_LADING_LABELS i = none := by
  unfold BILL_OF_LADING_LABELS
  repeat rw [if_neg (by omega)]

/-- C10: `get_funsd_label` is total with image inside
`{"answer", "header", "other"}`: the six value-bearing categories map to
`"answer"`, `layout` to `"header"`, `other` to `"other"`, and any ID outside
`0..28` (absent from the taxonomy) to `"other"`. -/
theorem get_funsd_label_total (i : ℤ) :
    (get_funsd_label i = "answer" ∨ get_funsd_label i = "header" ∨
      get_funsd_label i = "other") ∧
    (((BILL_OF_LADING_LABELS i).map (·.category) = some "role" ∨
      (BILL_OF_LADING_LABELS i).map (·.category) = some "geography" ∨
      (BILL_OF_LADING_LABELS i).map (·.category) = some "transport" ∨
      (BILL_OF_LADING_LABELS i).map (·.category) = some "cargo" ∨
      (BILL_OF_LADING_LABELS i).map (·.category) = some "number" ∨
      (BILL_OF_LADING_LABELS i).map (·.category) = some "rate") →
        get_funsd_label i = "answer") ∧
    ((BILL_OF_LADING_LABELS i).map (·.category) = some "layout" →
        get_funsd_label i = "header") ∧
    ((BILL_OF_LADING_LABELS i).map (·.category) = some "other" →
        get_funsd_label i = "other") ∧
    ((i < 0 ∨ 28 < i) →
        BILL_OF_LADING_LABELS i = none ∧ get_funsd_label i = "other") := by
  by_cases h : 0 ≤ i ∧ i ≤ 28
  · obtain ⟨h1, h2⟩ := h
    interval_cases i <;> exact ⟨by decide, by decide, by decide, by decide, by omega⟩
  · have hr : i < 0 ∨ 28 < i := by omega
    have hn := bill_of_lading_labels_out_of_range i hr
    have hg : get_funsd_label i = "other" := by
      unfold get_funsd_label
      rw [hn]
    refine ⟨Or.inr (Or.inr hg), ?_, ?_, ?_, fun _ => ⟨hn, hg⟩⟩
    · intro hc
      rw [hn] at hc
      simp at hc
    · intro hc
      rw [hn] at hc
      simp at hc
    · intro _
      exact hg

/-- Witness for C10 at `i = 3` (`port_of_loading`, category `geography`). -/
theorem get_funsd_label_total_witness :
    get_funsd_label 3 = "answer" ∨ get_funsd_label 3 = "header" ∨
      get_funsd_label 3 = "other" :=
  (get_funsd_label_total 3).1

/-- Worker bound: the split parts of `s` with accumulator `acc`, counted with
one separator each, fit in the remaining text plus the pending word. -/
theorem splitWeight_pySplitAux_le (s : List Char) :
    ∀ acc, splitWeight (pySplitAux s acc)
      ≤ s.length +
        (if acc.isEmpty then (if headNotWs s then 1 else 0) else acc.length + 1) := by
  induction s with
  | nil =>
    intro acc
    cases acc with
    | nil => simp [pySplitAux, splitWeight]
    | cons a as =>
      simp only [pySplitAux, List.isEmpty_cons, Bool.false_eq_true, if_false,
        splitWeight, List.map_cons, List.map_nil, List.sum_cons, List.sum_nil,
        List.length_reverse, List.length_nil, List.length_cons]
      omega
  | cons c cs ih =>
    intro acc
    cases hc : c.isWhitespace with
    | true =>
      have h := ih []
      simp only [List.isEmpty_nil, if_true] at h
      have hb : (if headNotWs cs then 1 else 0) ≤ 1 := by split <;> omega
      cases acc with
      | nil =>
        simp only [pySplitAux, hc, if_true, List.isEmpty_nil, headNotWs,
          Bool.not_true, Bool.false_eq_true, if_false, List.length_cons]
        omega
      | cons a as =>
        simp only [pySplitAux, hc, if_true, List.isEmpty_cons, Bool.false_eq_true,
          if_false, headNotWs, Bool.not_true, List.length_cons]
        simp only [splitWeight, List.map_cons, List.sum_cons,
          List.length_reverse, List.length_cons] at h ⊢
        omega
    | false =>
      have h := ih (c :: acc)
      cases acc with
      | nil =>
        simp [List.isEmpty_cons] at h
        simp [pySplitAux, hc, headNotWs]
        omega
      | cons a as =>
        simp [List.isEmpty_cons] at h
        simp [pySplitAux, hc, headNotWs]
        omega

/-- The parts of a whitespace split, counted with one separator each, never
exceed the length of the original text plus one (plus nothing when the text
starts with whitespace or is empty). -/
theorem splitWeight_pySplit_le (s : List Char) :
    splitWeight (pySplit s) ≤ s.length + (if headNotWs s then 1 else 0) := by
  have h := splitWeight_pySplitAux_le s []
  simpa [pySplit] using h

/-- Truncation toward zero is monotone. -/
theorem ratTrunc_mono {a b : ℚ} (h : a ≤ b) : ratTrunc a ≤ ratTrunc b := by
  unfold ratTrunc
  split_ifs with h1 h2
  · exact Int.ceil_mono h
  · refine le_trans (Int.ceil_le.2 ?_) (Int.floor_nonneg.2 (not_lt.1 h2))
    push_cast
    linarith
  · linarith [not_lt.1 h1]
  · exact Int.floor_mono h

/-- Truncation toward zero stays at or above any integer lower bound. -/
theorem int_le_ratTrunc {n : ℤ} {q : ℚ} (h : (n : ℚ) ≤ q) : n ≤ ratTrunc q := by
  unfold ratTrunc
  split_ifs with h1
  · exact_mod_cast le_trans h (Int.le_ceil q)
  · exact Int.le_floor.2 h

/-- Truncation toward zero stays at or below any integer upper bound. -/
theorem ratTrunc_le_int {n : ℤ} {q : ℚ} (h : q ≤ (n : ℚ)) : ratTrunc q ≤ n := by
  unfold ratTrunc
  split_ifs with h1
  · exact Int.ceil_le.2 h
  · exact_mod_cast le_trans (Int.floor_le q) h

/-- Invariant of the cursor loop: with a nonnegative character width, a cursor
at or beyond `x1`, and enough budget so that the final cursor stays at or below
`x2`, every emitted word box sits inside `[x1, x2]` with the fixed `y` bounds,
boxes are separated left to right, and the first box starts at the cursor. -/
theorem wordsLoop_spec (cw : ℚ) (y1 y2 x1 x2 : ℤ) (hcw : 0 ≤ cw) :
    ∀ (parts : List (List Char)) (cx : ℚ),
      (x1 : ℚ) ≤ cx →
      cx + (splitWeight parts : ℚ) * cw ≤ (x2 : ℚ) + cw →
      (∀ w ∈ wordsLoop cw y1 y2 parts cx,
          x1 ≤ w.box.x1 ∧ w.box.x1 ≤ w.box.x2 ∧ w.box.x2 ≤ x2 ∧
          w.box.y1 = y1 ∧ w.box.y2 = y2) ∧
      List.Chain' (fun a b => a.box.x2 ≤ b.box.x1) (wordsLoop cw y1 y2 parts cx) ∧
      (∀ w ∈ (wordsLoop cw y1 y2 parts cx).head?, w.box.x1 = ratTrunc cx) := by
  intro parts
  induction parts with
  | nil =>
    intro cx _ _
    refine ⟨?_, ?_, ?_⟩ <;> simp [wordsLoop]
  | cons p ps ih =>
    intro cx hx1 hbud
    have hpw : (0 : ℚ) ≤ (p.length : ℚ) * cw := mul_nonneg (by positivity) hcw
    have hwq : (0 : ℚ) ≤ (splitWeight ps : ℚ) * cw := mul_nonneg (by positivity) hcw
    have hwexp : (splitWeight (p :: ps) : ℚ) = (p.length : ℚ) + 1 + (splitWeight ps : ℚ) := by
      simp only [splitWeight, List.map_cons, List.sum_cons]
      push_cast
      ring
    have hexp : ((p.length : ℚ) + 1 + (splitWeight ps : ℚ)) * cw
        = (p.length : ℚ) * cw + cw + (splitWeight ps : ℚ) * cw := by ring
    rw [hwexp, hexp] at hbud
    have hend : cx + (p.length : ℚ) * cw ≤ (x2 : ℚ) := by linarith
    have hcx' : (x1 : ℚ) ≤ cx + (p.length : ℚ) * cw + cw := by linarith
    have hbud' : (cx + (p.length : ℚ) * cw + cw) + (splitWeight ps : ℚ) * cw
        ≤ (x2 : ℚ) + cw := by linarith
    obtain ⟨hmem, hch, hhead⟩ := ih (cx + (p.length : ℚ) * cw + cw) hcx' hbud'
    refine ⟨?_, ?_, ?_⟩
    · intro w hw
      rw [wordsLoop] at hw
      rcases List.mem_cons.1 hw with rfl | hw'
      · exact ⟨int_le_ratTrunc hx1, ratTrunc_mono (by linarith), ratTrunc_le_int hend,
          rfl, rfl⟩
      · exact hmem w hw'
    · rw [wordsLoop]
      refine List.chain'_cons'.2 ⟨?_, hch⟩
      intro b hb
      rw [hhead b hb]
      exact ratTrunc_mono (by linarith)
    · rw [wordsLoop]
      intro w hw
      simp only [List.head?_cons, Option.mem_def, Option.some.injEq] at hw
      rw [← hw]

/-- Words with nonempty x-ranges that are separated left to right have
monotonically non-decreasing x-ranges. -/
theorem chain_ranges_of_sep (ws : List Word)
    (hmem : ∀ w ∈ ws, w.box.x1 ≤ w.box.x2)
    (hch : List.Chain' (fun a b => a.box.x2 ≤ b.box.x1) ws) :
    List.Chain' (fun a b => a.box.x1 ≤ b.box.x1 ∧ a.box.x2 ≤ b.box.x2) ws := by
  induction ws with
  | nil => simp
  | cons a l ih =>
    rw [List.chain'_cons'] at hch ⊢
    obtain ⟨hab, hl⟩ := hch
    refine ⟨?_, ih (fun w hw => hmem w (List.mem_cons_of_mem _ hw)) hl⟩
    intro b hb
    have hbl : b ∈ l := List.mem_of_mem_head? hb
    have h1 := hmem a (List.mem_cons_self _ _)
    have h2 := hmem b (List.mem_cons_of_mem _ hbl)
    have h3 := hab b hb
    exact ⟨le_trans h1 h3, le_trans h3 h2⟩

/-- For a box with `x1 ≤ x2`, the synthesized word boxes all lie within
`[x1, x2]`, share the box's `y` bounds, have nonempty x-ranges, and their
x-ranges are monotonically non-decreasing in word order. -/
theorem split_words_within_box (text : List Char) (box : Box)
    (hx : box.x1 ≤ box.x2) :
    (∀ w ∈ split_text_to_words text box,
        box.x1 ≤ w.box.x1 ∧ w.box.x1 ≤ w.box.x2 ∧ w.box.x2 ≤ box.x2 ∧
        w.box.y1 = box.y1 ∧ w.box.y2 = box.y2) ∧
    List.Chain' (fun a b => a.box.x1 ≤ b.box.x1 ∧ a.box.x2 ≤ b.box.x2)
      (split_text_to_words text box) := by
  unfold split_text_to_words
  split_ifs with hp
  · constructor
    · intro w hw
      simp only [List.mem_singleton] at hw
      subst hw
      exact ⟨le_refl _, hx, le_refl _, rfl, rfl⟩
    · simp
  · have htext : text ≠ [] := by
      intro he
      subst he
      simp [pySplit, pySplitAux] at hp
    have hlen : 1 ≤ text.length := List.length_pos.2 htext
    have hmax : max text.length 1 = text.length := by omega
    have hlq : ((text.length : ℕ) : ℚ) ≠ 0 := by
      have : (0 : ℚ) < (text.length : ℚ) := by exact_mod_cast hlen
      linarith
    have hxq : ((box.x1 : ℤ) : ℚ) ≤ ((box.x2 : ℤ) : ℚ) := by exact_mod_cast hx
    have hcw : 0 ≤ ((box.x2 : ℚ) - (box.x1 : ℚ)) / ((max text.length 1 : ℕ) : ℚ) := by
      apply div_nonneg (by linarith)
      positivity
    have hW : (splitWeight (pySplit text) : ℚ) ≤ (text.length : ℚ) + 1 := by
      have h1 := splitWeight_pySplit_le text
      have h2 : splitWeight (pySplit text) ≤ text.length + 1 := by
        refine le_trans h1 ?_
        split <;> omega
      exact_mod_cast h2
    have hlencw : ((text.length : ℕ) : ℚ)
        * (((box.x2 : ℚ) - (box.x1 : ℚ)) / ((max text.length 1 : ℕ) : ℚ))
        = (box.x2 : ℚ) - (box.x1 : ℚ) := by
      rw [hmax]
      field_simp
    have hbud : ((box.x1 : ℤ) : ℚ) + (splitWeight (pySplit text) : ℚ)
          * (((box.x2 : ℚ) - (box.x1 : ℚ)) / ((max text.length 1 : ℕ) : ℚ))
        ≤ ((box.x2 : ℤ) : ℚ)
          + ((box.x2 : ℚ) - (box.x1 : ℚ)) / ((max text.length 1 : ℕ) : ℚ) := by
      have hmul := mul_le_mul_of_nonneg_right hW hcw
      have hexp : ((text.length : ℚ) + 1)
          * (((box.x2 : ℚ) - (box.x1 : ℚ)) / ((max text.length 1 : ℕ) : ℚ))
          = (text.length : ℚ)
            * (((box.x2 : ℚ) - (box.x1 : ℚ)) / ((max text.length 1 : ℕ) : ℚ))
            + ((box.x2 : ℚ) - (box.x1 : ℚ)) / ((max text.length 1 : ℕ) : ℚ) := by
        ring
      rw [hexp, hlencw] at hmul
      linarith
    obtain ⟨hmem, hch, _⟩ := wordsLoop_spec
      (((box.x2 : ℚ) - (box.x1 : ℚ)) / ((max text.length 1 : ℕ) : ℚ))
      box.y1 box.y2 box.x1 box.x2 hcw (pySplit text) ((box.x1 : ℚ))
      (le_refl _) hbud
    exact ⟨hmem, chain_ranges_of_sep _ (fun w hw => (hmem w hw).2.1) hch⟩


/-- Core invariant of the entity loop, generalized over the starting
`group_idx` and `entity_id`: on success the emitted entity IDs are the
consecutive range starting at `entity_id`, the entity count equals the
number of groups whose resolved fragment list is non-empty, and the
entities' (text, box) contents are the merges of exactly the surviving
groups in original order. -/
theorem buildForm_ids (tbs : List TextBox) (cls : String → Option JVal) :
    ∀ (gs : List (List ℤ)) (gi eid : ℕ) (es : List Entity),
      buildForm tbs cls gs gi eid = some es →
      es.map (·.id) = List.range' eid es.length ∧
      es.length = (gs.filter
          (fun g => !(g.filterMap (fun bid => text_box_lookup tbs bid)).isEmpty)).length ∧
      es.map (fun e => (e.text, e.box)) =
        gs.filterMap (fun g =>
          (merge_boxes (g.filterMap (fun bid => text_box_lookup tbs bid))).map
            (fun m => (m.text, m.box))) := by
  intro gs
  induction gs with
  | nil =>
    intro gi eid es h
    rw [buildForm] at h
    obtain rfl : ([] : List Entity) = es := Option.some.inj h
    simp
  | cons g gs ih =>
    intro gi eid es h
    rw [buildForm] at h
    rcases hgb : g.filterMap (fun bid => text_box_lookup tbs bid) with _ | ⟨b, bs'⟩
    · rw [hgb] at h
      simp only [List.isEmpty_nil, if_true] at h
      obtain ⟨h1, h2, h3⟩ := ih _ _ _ h
      refine ⟨h1, ?_, ?_⟩
      · rw [List.filter_cons_of_neg (by rw [hgb]; decide), h2]
      · rw [List.filterMap_cons_none (by rw [hgb]; rfl), h3]
    · rw [hgb] at h
      rw [if_neg (by simp)] at h
      cases hm : merge_boxes (b :: bs') with
      | none => exact absurd hm (by simp [merge_boxes])
      | some merged =>
        rw [hm] at h
        cases hr : resolveLabelId (cls (toString gi)) with
        | none =>
          rw [hr] at h
          exact absurd h (by simp)
        | some lid =>
          rw [hr] at h
          cases hb : buildForm tbs cls gs (gi + 1) (eid + 1) with
          | none => rw [hb] at h; exact absurd h (by simp)
          | some rest =>
            rw [hb] at h
            simp only [Option.map_some', Option.some.injEq] at h
            subst h
            obtain ⟨h1, h2, h3⟩ := ih _ _ _ hb
            refine ⟨?_, ?_, ?_⟩
            · simp only [List.map_cons, List.length_cons, h1]
              rw [List.range'_succ]
            · rw [List.filter_cons_of_pos (by rw [hgb]; rfl)]
              simp only [List.length_cons, h2]
            · rw [List.filterMap_cons_some (by rw [hgb, hm]; rfl)]
              simp only [List.map_cons, h3]

/-- C4: Whenever the merger succeeds on a page, it emits exactly one entity
per group whose resolved fragment list is non-empty, the entity `id` fields
are exactly `0..K-1` in increasing order with no gaps, and the entities'
(text, box) contents are the merges of the surviving groups in their
original relative order. -/
theorem generate_funsd_id_compaction (name : String) (w h : ℤ)
    (tbs : List TextBox) (groups : List (List ℤ)) (cls : String → Option JVal)
    (doc : FunsdDoc) (hdoc : generate_funsd name w h tbs groups cls = some doc) :
    doc.form.length
        = (groups.filter
            (fun g => !(g.filterMap (fun bid => text_box_lookup tbs bid)).isEmpty)).length ∧
    doc.form.map (·.id) = List.range doc.form.length ∧
    doc.form.map (fun e => (e.text, e.box)) =
      groups.filterMap (fun g =>
        (merge_boxes (g.filterMap (fun bid => text_box_lookup tbs bid))).map
          (fun m => (m.text, m.box))) := by
  unfold generate_funsd at hdoc
  cases hb : buildForm tbs cls groups 0 0 with
  | none => rw [hb] at hdoc; exact absurd hdoc (by simp)
  | some es =>
    rw [hb] at hdoc
    simp only [Option.map_some', Option.some.injEq] at hdoc
    subst hdoc
    obtain ⟨h1, h2, h3⟩ := buildForm_ids tbs cls groups 0 0 es hb
    refine ⟨h2, ?_, h3⟩
    rw [h1, List.range_eq_range']

/-- Witness for C4: one page with two groups, the first resolvable and the
second referencing only the nonexistent fragment ID 5, so `K = 1`. -/
theorem generate_funsd_id_compaction_witness :
    ∃ doc, generate_funsd "p" 10 10 [⟨0, ['a'], ⟨0, 0, 2, 1⟩⟩] [[0], [5]]
        (fun _ => none) = some doc ∧
      (doc.form.length
          = (([[0], [5]] : List (List ℤ)).filter
              (fun g => !(g.filterMap
                (fun bid => text_box_lookup [⟨0, ['a'], ⟨0, 0, 2, 1⟩⟩] bid)).isEmpty)).length ∧
       doc.form.map (·.id) = List.range doc.form.length ∧
       doc.form.map (fun e => (e.text, e.box)) =
         ([[0], [5]] : List (List ℤ)).filterMap (fun g =>
           (merge_boxes (g.filterMap
             (fun bid => text_box_lookup [⟨0, ['a'], ⟨0, 0, 2, 1⟩⟩] bid))).map
               (fun m => (m.text, m.box)))) := by
  have hs : (generate_funsd "p" 10 10 [⟨0, ['a'], ⟨0, 0, 2, 1⟩⟩] [[0], [5]]
      (fun _ => none)).isSome = true := by decide
  cases hdoc : generate_funsd "p" 10 10 [⟨0, ['a'], ⟨0, 0, 2, 1⟩⟩] [[0], [5]]
      (fun _ => none) with
  | none => rw [hdoc] at hs; exact absurd hs (by simp)
  | some doc =>
    exact ⟨doc, rfl,
      ⟨(generate_funsd_id_compaction "p" 10 10 _ _ _ doc hdoc).1,
       (generate_funsd_id_compaction "p" 10 10 _ _ _ doc hdoc).2.1,
       (generate_funsd_id_compaction "p" 10 10 _ _ _ doc hdoc).2.2⟩⟩

/-- The entity loop only consults the classification mapping at the keys
`str(group_idx)` for the indices it enumerates. -/
theorem buildForm_congr (tbs : List TextBox) (cls1 cls2 : String → Option JVal) :
    ∀ (gs : List (List ℤ)) (gi eid : ℕ),
      (∀ i : ℕ, gi ≤ i → i < gi + gs.length → cls1 (toString i) = cls2 (toString i)) →
      buildForm tbs cls1 gs gi eid = buildForm tbs cls2 gs gi eid := by
  intro gs
  induction gs with
  | nil => intro gi eid _; rfl
  | cons g gs ih =>
    intro gi eid hagree
    have hg : cls1 (toString gi) = cls2 (toString gi) :=
      hagree gi le_rfl (by simp only [List.length_cons]; omega)
    have hrest : ∀ i : ℕ, gi + 1 ≤ i → i < gi + 1 + gs.length →
        cls1 (toString i) = cls2 (toString i) := by
      intro i h1 h2
      exact hagree i (by omega) (by simp only [List.length_cons]; omega)
    simp only [buildForm, hg, ih (gi + 1) eid hrest, ih (gi + 1) (eid + 1) hrest]

/-- C8: Two classification mappings that agree on every key `str(i)` with
`i` in `[0, len(groups))` produce identical merger output; keys outside that
range are never consulted, and a missing in-range key resolves to label
ID 27. -/
theorem generate_funsd_classification_agreement (name : String) (w h : ℤ)
    (tbs : List TextBox) (groups : List (List ℤ)) (cls1 cls2 : String → Option JVal)
    (hagree : ∀ i : ℕ, i < groups.length → cls1 (toString i) = cls2 (toString i)) :
    generate_funsd name w h tbs groups cls1 = generate_funsd name w h tbs groups cls2 ∧
    (∀ i : ℕ, cls1 (toString i) = none →
      resolveLabelId (cls1 (toString i)) = some 27) := by
  constructor
  · unfold generate_funsd
    rw [buildForm_congr tbs cls1 cls2 groups 0 0 (fun i _ h2 => hagree i (by omega))]
  · intro i hmiss
    rw [hmiss]
    rfl

/-- Witness for C8: `cls1` and `cls2` agree on the single in-range key `"0"`
and differ on every other key, yet the page output is identical. -/
theorem generate_funsd_classification_agreement_witness :
    (∀ i : ℕ, i < ([[0]] : List (List ℤ)).length →
      (fun s => if s = "0" then some (JVal.jint 3) else none) (toString i)
        = (fun s => if s = "0" then some (JVal.jint 3) else some (JVal.jint 9)) (toString i)) ∧
    (generate_funsd "p" 10 10 [⟨0, ['a'], ⟨0, 0, 2, 1⟩⟩] [[0]]
        (fun s => if s = "0" then some (JVal.jint 3) else none)
      = generate_funsd "p" 10 10 [⟨0, ['a'], ⟨0, 0, 2, 1⟩⟩] [[0]]
        (fun s => if s = "0" then some (JVal.jint 3) else some (JVal.jint 9)) ∧
    (∀ i : ℕ, (fun s => if s = "0" then some (JVal.jint 3) else none) (toString i) = none →
      resolveLabelId ((fun s => if s = "0" then some (JVal.jint 3) else none) (toString i))
        = some 27)) := by
  have ha : ∀ i : ℕ, i < ([[0]] : List (List ℤ)).length →
      (fun s => if s = "0" then some (JVal.jint 3) else none) (toString i)
        = (fun s => if s = "0" then some (JVal.jint 3) else some (JVal.jint 9)) (toString i) := by
    intro i hi
    have hz : i = 0 := by simpa using hi
    subst hz
    rfl
  exact ⟨ha, generate_funsd_classification_agreement "p" 10 10 _ _ _ _ ha⟩

/-- Restricting a group to its fragment IDs that exist in the OCR set does
not change the resolved fragment list. -/
theorem filterMap_filter_known (tbs : List TextBox) (g : List ℤ) :
    (g.filter (fun bid => (text_box_lookup tbs bid).isSome)).filterMap
        (fun bid => text_box_lookup tbs bid)
      = g.filterMap (fun bid => text_box_lookup tbs bid) := by
  induction g with
  | nil => rfl
  | cons a t ih =>
    cases hl : text_box_lookup tbs a with
    | none => simp [List.filter_cons, List.filterMap_cons, hl, ih]
    | some b => simp [List.filter_cons, List.filterMap_cons, hl, ih]

/-- Dropping the nonexistent fragment IDs from every group leaves the entity
loop's output unchanged (group indices are not shifted by in-group removal). -/
theorem buildForm_filter_known (tbs : List TextBox) (cls : String → Option JVal) :
    ∀ (gs : List (List ℤ)) (gi eid : ℕ),
      buildForm tbs cls
          (gs.map (fun gr => gr.filter (fun bid => (text_box_lookup tbs bid).isSome)))
          gi eid
        = buildForm tbs cls gs gi eid := by
  intro gs
  induction gs with
  | nil => intro gi eid; rfl
  | cons g gs ih =>
    intro gi eid
    simp only [List.map_cons, buildForm, filterMap_filter_known,
      ih (gi + 1) eid, ih (gi + 1) (eid + 1)]

/-- C7: Fragment IDs in a group that do not exist in the OCR fragment set are
silently excluded: removing them from every group gives the identical page
output, and a page whose single group references only nonexistent IDs
produces a successful document with zero entities. -/
theorem generate_funsd_unknown_ids (name : String) (w h : ℤ)
    (tbs : List TextBox) (groups : List (List ℤ)) (cls : String → Option JVal)
    (g : List ℤ) (hg : ∀ bid ∈ g, text_box_lookup tbs bid = none) :
    generate_funsd name w h tbs
        (groups.map (fun gr => gr.filter (fun bid => (text_box_lookup tbs bid).isSome)))
        cls
      = generate_funsd name w h tbs groups cls ∧
    generate_funsd name w h tbs [g] cls
      = some { image := name, width := w, height := h, form := [] } := by
  constructor
  · unfold generate_funsd
    rw [buildForm_filter_known]
  · have hres : g.filterMap (fun bid => text_box_lookup tbs bid) = [] := by
      simp only [List.filterMap_eq_nil_iff]
      exact hg
    unfold generate_funsd
    simp only [buildForm, hres, List.isEmpty_nil, if_true, Option.map_some']

/-- Witness for C7 at the spec's concrete scenario: grouping `[[5]]` where
fragment ID 5 does not exist in the OCR set. -/
theorem generate_funsd_unknown_ids_witness :
    (∀ bid ∈ ([5] : List ℤ), text_box_lookup [⟨0, ['a'], ⟨0, 0, 2, 1⟩⟩] bid = none) ∧
    (generate_funsd "p" 10 10 [⟨0, ['a'], ⟨0, 0, 2, 1⟩⟩]
        (([[0, 5]] : List (List ℤ)).map
          (fun gr => gr.filter
            (fun bid => (text_box_lookup [⟨0, ['a'], ⟨0, 0, 2, 1⟩⟩] bid).isSome)))
        (fun _ => none)
      = generate_funsd "p" 10 10 [⟨0, ['a'], ⟨0, 0, 2, 1⟩⟩] [[0, 5]] (fun _ => none) ∧
    generate_funsd "p" 10 10 [⟨0, ['a'], ⟨0, 0, 2, 1⟩⟩] [[5]] (fun _ => none)
      = some { image := "p", width := 10, height := 10, form := [] }) :=
  ⟨by decide,
    generate_funsd_unknown_ids "p" 10 10 [⟨0, ['a'], ⟨0, 0, 2, 1⟩⟩] [[0, 5]]
      (fun _ => none) [5] (by decide)⟩

/-- C3: A group index absent from the classification mapping resolves to
label ID exactly 27, whose fine taxonomy name is `"other"` and whose coarse
FUNSD label is `"other"`; on a page whose (single) group at index 0 has no
classification entry, the emitted entity carries exactly those defaults. -/
theorem default_label_other (cls : String → Option JVal) (idx : ℕ)
    (hmiss : cls (toString idx) = none) :
    resolveLabelId (cls (toString idx)) = some 27 ∧
    get_funsd_label 27 = "other" ∧
    (LABEL_ID_TO_NAME 27).getD "other" = "other" ∧
    (∀ (name : String) (w h : ℤ) (tbs : List TextBox) (g : List ℤ),
      idx = 0 →
      (g.filterMap (fun bid => text_box_lookup tbs bid)).isEmpty = false →
      ∃ e, generate_funsd name w h tbs [g] cls
          = some { image := name, width := w, height := h, form := [e] } ∧
        e.bol_label_id = 27 ∧ e.label = "other" ∧ e.bol_label = "other") := by
  refine ⟨by rw [hmiss]; rfl, by decide, by decide, ?_⟩
  intro name w h tbs g hidx hne
  subst hidx
  rcases hgb : g.filterMap (fun bid => text_box_lookup tbs bid) with _ | ⟨b, bs'⟩
  · rw [hgb] at hne
    simp at hne
  · unfold generate_funsd
    simp only [buildForm, hgb, List.isEmpty_cons, Bool.false_eq_true, if_false]
    cases hm : merge_boxes (b :: bs') with
    | none => exact absurd hm (by simp [merge_boxes])
    | some merged =>
      rw [hmiss]
      simp only [resolveLabelId, Option.map_some']
      exact ⟨_, rfl, rfl, rfl, rfl⟩

/-- Witness for C3: an empty classification mapping with one resolvable
single-fragment group. -/
theorem default_label_other_witness :
    ((fun _ => none) : String → Option JVal) (toString 0) = none ∧
    (resolveLabelId (((fun _ => none) : String → Option JVal) (toString 0)) = some 27 ∧
    get_funsd_label 27 = "other" ∧
    (LABEL_ID_TO_NAME 27).getD "other" = "other" ∧
    (∀ (name : String) (w h : ℤ) (tbs : List TextBox) (g : List ℤ),
      (0 : ℕ) = 0 →
      (g.filterMap (fun bid => text_box_lookup tbs bid)).isEmpty = false →
      ∃ e, generate_funsd name w h tbs [g] (fun _ => none)
          = some { image := name, width := w, height := h, form := [e] } ∧
        e.bol_label_id = 27 ∧ e.label = "other" ∧ e.bol_label = "other")) :=
  ⟨rfl, default_label_other (fun _ => none) 0 rfl⟩

/-- `split_text_to_words` always emits at least one word record. -/
theorem split_text_to_words_ne_nil (text : List Char) (box : Box) :
    split_text_to_words text box ≠ [] := by
  unfold split_text_to_words
  split_ifs with h
  · simp
  · rcases hp : pySplit text with _ | ⟨p, ps⟩
    · rw [hp] at h
      simp at h
    · rw [wordsLoop]
      simp

/-- Every entity the loop emits carries the word list synthesized from its
merged text, which is never empty. -/
theorem buildForm_words_ne_nil (tbs : List TextBox) (cls : String → Option JVal) :
    ∀ (gs : List (List ℤ)) (gi eid : ℕ) (es : List Entity),
      buildForm tbs cls gs gi eid = some es → ∀ e ∈ es, e.words ≠ [] := by
  intro gs
  induction gs with
  | nil =>
    intro gi eid es h
    obtain rfl : ([] : List Entity) = es := Option.some.inj h
    intro e he
    simp at he
  | cons g gs ih =>
    intro gi eid es h
    rw [buildForm] at h
    rcases hgb : g.filterMap (fun bid => text_box_lookup tbs bid) with _ | ⟨b, bs'⟩
    · rw [hgb] at h
      simp only [List.isEmpty_nil, if_true] at h
      exact ih _ _ _ h
    · rw [hgb] at h
      rw [if_neg (by simp)] at h
      cases hm : merge_boxes (b :: bs') with
      | none => exact absurd hm (by simp [merge_boxes])
      | some merged =>
        rw [hm] at h
        cases hr : resolveLabelId (cls (toString gi)) with
        | none =>
          rw [hr] at h
          exact absurd h (by simp)
        | some lid =>
          rw [hr] at h
          cases hb : buildForm tbs cls gs (gi + 1) (eid + 1) with
          | none => rw [hb] at h; exact absurd h (by simp)
          | some rest =>
            rw [hb] at h
            simp only [Option.map_some', Option.some.injEq] at h
            subst h
            intro e he
            rcases List.mem_cons.1 he with rfl | he'
            · exact split_text_to_words_ne_nil _ _
            · exact ih _ _ _ hb e he'

/-- C9: When the whitespace split of the merged text yields no parts, the
synthesized word list is exactly one empty-text word covering the whole
merged box; consequently `split_text_to_words` never returns an empty list
and every emitted entity has a non-empty `words` field. -/
theorem words_nonempty (text : List Char) (box : Box) (name : String) (w h : ℤ)
    (tbs : List TextBox) (groups : List (List ℤ)) (cls : String → Option JVal) :
    (pySplit text = [] → split_text_to_words text box = [{ text := [], box := box }]) ∧
    split_text_to_words text box ≠ [] ∧
    (∀ doc, generate_funsd name w h tbs groups cls = some doc →
      ∀ e ∈ doc.form, e.words ≠ []) := by
  refine ⟨?_, split_text_to_words_ne_nil text box, ?_⟩
  · intro hp
    unfold split_text_to_words
    rw [if_pos (by rw [hp]; rfl)]
  · intro doc hdoc
    unfold generate_funsd at hdoc
    cases hb : buildForm tbs cls groups 0 0 with
    | none => rw [hb] at hdoc; exact absurd hdoc (by simp)
    | some es =>
      rw [hb] at hdoc
      simp only [Option.map_some', Option.some.injEq] at hdoc
      subst hdoc
      exact buildForm_words_ne_nil tbs cls groups 0 0 es hb

/-- Witness for C9 at all-whitespace text `"  "` in the box `[0, 0, 4, 2]`
and a one-group page. -/
theorem words_nonempty_witness :
    (pySplit "  ".toList = [] →
      split_text_to_words "  ".toList ⟨0, 0, 4, 2⟩
        = [{ text := [], box := ⟨0, 0, 4, 2⟩ }]) ∧
    split_text_to_words "  ".toList ⟨0, 0, 4, 2⟩ ≠ [] ∧
    (∀ doc, generate_funsd "p" 10 10 [⟨0, ['a'], ⟨0, 0, 2, 1⟩⟩] [[0]]
        (fun _ => none) = some doc →
      ∀ e ∈ doc.form, e.words ≠ []) :=
  words_nonempty "  ".toList ⟨0, 0, 4, 2⟩ "p" 10 10 [⟨0, ['a'], ⟨0, 0, 2, 1⟩⟩] [[0]]
    (fun _ => none)

/-- C5 counterexample: on a fully processed page (all five artifacts
present), the OCR stage still selects the page although its OCR output
artifact exists, and the merge stage still selects it although its final
FUNSD artifact exists — so a second run repeats OCR backend calls, and the
scans are not uniformly output-keyed. -/
theorem scan_not_output_keyed :
    step2_selects ⟨true, true, true, true, true⟩ = true ∧
    (⟨true, true, true, true, true⟩ : PageArtifacts).ocr = true ∧
    step5_selects ⟨true, true, true, true, true⟩ = true ∧
    (⟨true, true, true, true, true⟩ : PageArtifacts).funsd = true := by decide

/-- C5 (amended): only the two VLM stages key their scans on the output
artifact — they never select a page whose output exists, so a second run
performs zero additional VLM calls — while the OCR stage selects every
image regardless of existing outputs and the merge stage reprocesses every
complete page. -/
theorem vlm_stages_skip_done_pages (p : PageArtifacts)
    (h : p.image = true ∧ p.ocr = true ∧ p.grouping = true ∧
      p.classification = true ∧ p.funsd = true) :
    step3_selects p = false ∧ step4_selects p = false ∧
    step2_selects p = true ∧ step5_selects p = true ∧
    (∀ q : PageArtifacts, step3_selects q = true → q.grouping = false) ∧
    (∀ q : PageArtifacts, step4_selects q = true → q.classification = false) := by
  obtain ⟨h1, h2, h3, h4, h5⟩ := h
  refine ⟨?_, ?_, ?_, ?_, ?_, ?_⟩
  · simp [step3_selects, h3]
  · simp [step4_selects, h4]
  · simp [step2_selects, h1]
  · simp [step5_selects, h1, h2, h3, h4]
  · intro q hq
    simp [step3_selects] at hq
    tauto
  · intro q hq
    simp [step4_selects] at hq
    tauto

/-- Witness for the amended C5 at the fully processed page. -/
theorem vlm_stages_skip_done_pages_witness :
    ((⟨true, true, true, true, true⟩ : PageArtifacts).image = true ∧
      (⟨true, true, true, true, true⟩ : PageArtifacts).ocr = true ∧
      (⟨true, true, true, true, true⟩ : PageArtifacts).grouping = true ∧
      (⟨true, true, true, true, true⟩ : PageArtifacts).classification = true ∧
      (⟨true, true, true, true, true⟩ : PageArtifacts).funsd = true) ∧
    (step3_selects ⟨true, true, true, true, true⟩ = false ∧
      step4_selects ⟨true, true, true, true, true⟩ = false ∧
      step2_selects ⟨true, true, true, true, true⟩ = true ∧
      step5_selects ⟨true, true, true, true, true⟩ = true ∧
      (∀ q : PageArtifacts, step3_selects q = true → q.grouping = false) ∧
      (∀ q : PageArtifacts, step4_selects q = true → q.classification = false)) :=
  ⟨by decide, vlm_stages_skip_done_pages ⟨true, true, true, true, true⟩ (by decide)⟩

/-- Joining a single line is the line itself. -/
theorem joinLines_single (a : List Char) : joinLines [a] = a := by
  simp [joinLines, List.intercalate]

/-- Unfolding one joined line. -/
theorem joinLines_cons_cons (a b : List Char) (t : List (List Char)) :
    joinLines (a :: b :: t) = a ++ '\n' :: joinLines (b :: t) := by
  simp [joinLines, List.intercalate, List.intersperse]

/-- A newline-free string splits into exactly one line. -/
theorem splitLines_no_newline (l : List Char) (h : '\n' ∉ l) :
    splitLines l = [l] := by
  induction l with
  | nil => rfl
  | cons c cs ih =>
    have hc : ¬ c = '\n' := fun he => h (he ▸ List.mem_cons_self _ _)
    have hcs : '\n' ∉ cs := fun he => h (List.mem_cons_of_mem _ he)
    simp [splitLines, hc, ih hcs]

/-- Splitting after a newline-free prefix and an explicit newline. -/
theorem splitLines_append_newline (a rest : List Char) (ha : '\n' ∉ a) :
    splitLines (a ++ '\n' :: rest) = a :: splitLines rest := by
  induction a with
  | nil => simp [splitLines]
  | cons c cs ih =>
    have hc : ¬ c = '\n' := fun he => ha (he ▸ List.mem_cons_self _ _)
    have hcs : '\n' ∉ cs := fun he => ha (List.mem_cons_of_mem _ he)
    simp [splitLines, hc, ih hcs]

/-- Splitting inverts joining for newline-free lines. -/
theorem splitLines_joinLines : ∀ (l : List Char) (ls : List (List Char)),
    (∀ m ∈ l :: ls, '\n' ∉ m) → splitLines (joinLines (l :: ls)) = l :: ls := by
  intro l ls
  induction ls generalizing l with
  | nil =>
    intro h
    rw [joinLines_single]
    exact splitLines_no_newline _ (h l (List.mem_cons_self _ _))
  | cons m t ih =>
    intro h
    rw [joinLines_cons_cons,
      splitLines_append_newline _ _ (h l (List.mem_cons_self _ _)),
      ih m (fun x hx => h x (List.mem_cons_of_mem _ hx))]

/-- A fence prefix survives appending. -/
theorem startsWithFence_append (l r : List Char) (h : startsWithFence l = true) :
    startsWithFence (l ++ r) = true := by
  rcases l with _ | ⟨a, _ | ⟨b, _ | ⟨c, t⟩⟩⟩ <;> simp_all [startsWithFence]

/-- C6 counterexample: on a response with a leading fence line but no
trailing fence line, the code strips the first and last lines anyway,
leaving the empty string, which fails JSON parsing and hard-fails the page —
whereas stripping "only if such fence lines are present" (the claim's
reading, `spec_strip_fences`) leaves the valid JSON body `[[0]]`. -/
theorem fence_strip_counterexample :
    strip_fences "```json\n[[0]]".toList = [] ∧
    spec_strip_fences "```json\n[[0]]".toList = "[[0]]".toList ∧
    strip_fences "```json\n[[0]]".toList ≠ spec_strip_fences "```json\n[[0]]".toList ∧
    parse_grouping_response "```json\n[[0]]".toList = none ∧
    parseGroupsJson (spec_strip_fences (pyStrip "```json\n[[0]]".toList))
      = some [[0]] := by
  decide

/-- C6 (amended): the parsers strip nothing when the response does not start
with a fence; when it does start with a fence they remove the first line and
the last line unconditionally — whether or not the last line is a fence —
and any remainder that is not valid JSON is a hard failure for the page
(no partial result). -/
theorem fence_strip_behavior :
    (∀ s : List Char, startsWithFence s = false → strip_fences s = s) ∧
    (∀ (l : List Char) (ls : List (List Char)),
      (∀ m ∈ l :: ls, '\n' ∉ m) → startsWithFence l = true →
      strip_fences (joinLines (l :: ls)) = joinLines ls.dropLast) ∧
    (∀ raw : List Char,
      parseGroupsJson (strip_fences (pyStrip raw)) = none →
      parse_grouping_response raw = none) := by
  refine ⟨?_, ?_, ?_⟩
  · intro s hs
    unfold strip_fences
    rw [if_neg (by rw [hs]; simp)]
  · intro l ls hnl hf
    have hsw : startsWithFence (joinLines (l :: ls)) = true := by
      cases ls with
      | nil => rw [joinLines_single]; exact hf
      | cons m t => rw [joinLines_cons_cons]; exact startsWithFence_append _ _ hf
    unfold strip_fences
    rw [if_pos hsw, splitLines_joinLines l ls hnl]
    rfl
  · intro raw h
    exact h

/-- Witness for the amended C6 at a well-fenced three-line response. -/
theorem fence_strip_behavior_witness :
    (∀ m ∈ ["```json".toList, "[[0, 1]]".toList, "```".toList], '\n' ∉ m) ∧
    startsWithFence "```json".toList = true ∧
    strip_fences (joinLines ["```json".toList, "[[0, 1]]".toList, "```".toList])
      = joinLines (["[[0, 1]]".toList, "```".toList].dropLast) :=
  ⟨by decide, by decide,
    fence_strip_behavior.2.1 "```json".toList ["[[0, 1]]".toList, "```".toList]
      (by decide) (by decide)⟩


/-- A successful `text_box_lookup` returns a member of the fragment list. -/
theorem text_box_lookup_mem (tbs : List TextBox) (bid : ℤ) (b : TextBox)
    (h : text_box_lookup tbs bid = some b) : b ∈ tbs := by
  have aux : ∀ (l : List TextBox) (acc : Option TextBox),
      l.foldl (fun acc x => if x.id = bid then some x else acc) acc = some b →
      acc = some b ∨ b ∈ l := by
    intro l
    induction l with
    | nil => intro acc hl; exact Or.inl hl
    | cons x t ih =>
      intro acc hl
      rcases ih _ hl with hstep | hmem
      · change (if x.id = bid then some x else acc) = some b at hstep
        by_cases hid : x.id = bid
        · rw [if_pos hid] at hstep
          exact Or.inr (by rw [← Option.some.inj hstep]; exact List.mem_cons_self _ _)
        · rw [if_neg hid] at hstep
          exact Or.inl hstep
      · exact Or.inr (List.mem_cons_of_mem _ hmem)
  rcases aux tbs none h with habs | hmem
  · exact absurd habs (by simp)
  · exact hmem

/-- When every member box has `x1 ≤ x2`, so does the merged box. -/
theorem merge_boxes_wf (b : TextBox) (bs : List TextBox)
    (hwf : ∀ t ∈ b :: bs, t.box.x1 ≤ t.box.x2) (m : Merged)
    (hm : merge_boxes (b :: bs) = some m) : m.box.x1 ≤ m.box.x2 := by
  obtain rfl := Option.some.inj hm
  have h1 := foldl_min_le (bs.map (·.box.x1)) b.box.x1 b.box.x1
    (List.mem_cons_self _ _)
  have h2 := le_foldl_max (bs.map (·.box.x2)) b.box.x2 b.box.x2
    (List.mem_cons_self _ _)
  have h3 := hwf b (List.mem_cons_self _ _)
  exact le_trans h1 (le_trans h3 h2)

/-- Every emitted entity has a well-formed box (given well-formed OCR boxes)
and carries exactly the word list synthesized from its own text and box. -/
theorem buildForm_entity_words (tbs : List TextBox) (cls : String → Option JVal)
    (hwf : ∀ t ∈ tbs, t.box.x1 ≤ t.box.x2) :
    ∀ (gs : List (List ℤ)) (gi eid : ℕ) (es : List Entity),
      buildForm tbs cls gs gi eid = some es →
      ∀ e ∈ es, e.box.x1 ≤ e.box.x2 ∧
        e.words = split_text_to_words e.text e.box := by
  intro gs
  induction gs with
  | nil =>
    intro gi eid es h
    obtain rfl : ([] : List Entity) = es := Option.some.inj h
    intro e he
    simp at he
  | cons g gs ih =>
    intro gi eid es h
    rw [buildForm] at h
    rcases hgb : g.filterMap (fun bid => text_box_lookup tbs bid) with _ | ⟨b, bs'⟩
    · rw [hgb] at h
      simp only [List.isEmpty_nil, if_true] at h
      exact ih _ _ _ h
    · rw [hgb] at h
      rw [if_neg (by simp)] at h
      cases hm : merge_boxes (b :: bs') with
      | none => exact absurd hm (by simp [merge_boxes])
      | some merged =>
        rw [hm] at h
        cases hr : resolveLabelId (cls (toString gi)) with
        | none =>
          rw [hr] at h
          exact absurd h (by simp)
        | some lid =>
          rw [hr] at h
          cases hb : buildForm tbs cls gs (gi + 1) (eid + 1) with
          | none => rw [hb] at h; exact absurd h (by simp)
          | some rest =>
            rw [hb] at h
            simp only [Option.map_some', Option.some.injEq] at h
            subst h
            intro e he
            rcases List.mem_cons.1 he with rfl | he'
            · refine ⟨?_, rfl⟩
              refine merge_boxes_wf b bs' ?_ merged hm
              intro t ht
              have htm : t ∈ g.filterMap (fun bid => text_box_lookup tbs bid) := by
                rw [hgb]; exact ht
              rcases List.mem_filterMap.1 htm with ⟨bid, _, hlook⟩
              exact hwf t (text_box_lookup_mem tbs bid t hlook)
            · exact ih _ _ _ hb e he'

/-- C2: For every merged box with `x_min ≤ x_max`, the word boxes synthesized
by `split_text_to_words` all lie within `[x_min, x_max]`, share the merged
box's `y_min`/`y_max`, have nonempty x-ranges, and their x-ranges are
monotonically non-decreasing in word order; consequently every entity the
merger emits from well-formed OCR fragment boxes satisfies exactly these
word-span properties for its own box. -/
theorem split_text_to_words_spans (text : List Char) (box : Box)
    (hx : box.x1 ≤ box.x2) :
    ((∀ w ∈ split_text_to_words text box,
        box.x1 ≤ w.box.x1 ∧ w.box.x1 ≤ w.box.x2 ∧ w.box.x2 ≤ box.x2 ∧
        w.box.y1 = box.y1 ∧ w.box.y2 = box.y2) ∧
      List.Chain' (fun a b => a.box.x1 ≤ b.box.x1 ∧ a.box.x2 ≤ b.box.x2)
        (split_text_to_words text box)) ∧
    (∀ (name : String) (w h : ℤ) (tbs : List TextBox) (groups : List (List ℤ))
        (cls : String → Option JVal) (doc : FunsdDoc),
      (∀ t ∈ tbs, t.box.x1 ≤ t.box.x2) →
      generate_funsd name w h tbs groups cls = some doc →
      ∀ e ∈ doc.form,
        (∀ wd ∈ e.words,
          e.box.x1 ≤ wd.box.x1 ∧ wd.box.x1 ≤ wd.box.x2 ∧ wd.box.x2 ≤ e.box.x2 ∧
          wd.box.y1 = e.box.y1 ∧ wd.box.y2 = e.box.y2) ∧
        List.Chain' (fun a b => a.box.x1 ≤ b.box.x1 ∧ a.box.x2 ≤ b.box.x2)
          e.words) := by
  refine ⟨split_words_within_box text box hx, ?_⟩
  intro name w h tbs groups cls doc hwf hdoc
  unfold generate_funsd at hdoc
  cases hb : buildForm tbs cls groups 0 0 with
  | none => rw [hb] at hdoc; exact absurd hdoc (by simp)
  | some es =>
    rw [hb] at hdoc
    simp only [Option.map_some', Option.some.injEq] at hdoc
    subst hdoc
    intro e he
    obtain ⟨hew, heq⟩ := buildForm_entity_words tbs cls hwf groups 0 0 es hb e he
    rw [heq]
    exact split_words_within_box e.text e.box hew

/-- Witness for C2 at the spec's scenario text `"Shipper ABC Co."` in the
merged box `[0, 0, 80, 22]`. -/
theorem split_text_to_words_spans_witness :
    (⟨0, 0, 80, 22⟩ : Box).x1 ≤ (⟨0, 0, 80, 22⟩ : Box).x2 ∧
    (((∀ w ∈ split_text_to_words "Shipper ABC Co.".toList ⟨0, 0, 80, 22⟩,
        (⟨0, 0, 80, 22⟩ : Box).x1 ≤ w.box.x1 ∧ w.box.x1 ≤ w.box.x2 ∧
        w.box.x2 ≤ (⟨0, 0, 80, 22⟩ : Box).x2 ∧
        w.box.y1 = (⟨0, 0, 80, 22⟩ : Box).y1 ∧
        w.box.y2 = (⟨0, 0, 80, 22⟩ : Box).y2) ∧
      List.Chain' (fun a b => a.box.x1 ≤ b.box.x1 ∧ a.box.x2 ≤ b.box.x2)
        (split_text_to_words "Shipper ABC Co.".toList ⟨0, 0, 80, 22⟩)) ∧
    (∀ (name : String) (w h : ℤ) (tbs : List TextBox) (groups : List (List ℤ))
        (cls : String → Option JVal) (doc : FunsdDoc),
      (∀ t ∈ tbs, t.box.x1 ≤ t.box.x2) →
      generate_funsd name w h tbs groups cls = some doc →
      ∀ e ∈ doc.form,
        (∀ wd ∈ e.words,
          e.box.x1 ≤ wd.box.x1 ∧ wd.box.x1 ≤ wd.box.x2 ∧ wd.box.x2 ≤ e.box.x2 ∧
          wd.box.y1 = e.box.y1 ∧ wd.box.y2 = e.box.y2) ∧
        List.Chain' (fun a b => a.box.x1 ≤ b.box.x1 ∧ a.box.x2 ≤ b.box.x2)
          e.words)) :=
  ⟨by decide,
    split_text_to_words_spans "Shipper ABC Co.".toList ⟨0, 0, 80, 22⟩ (by decide)⟩
